import Mathlib

/-!
Shallow embedding of the `db` package of `haylingsailor/ed` (Go + SQLite).

The package keeps a persistent table `main.person (id INTEGER PRIMARY KEY,
name TEXT NOT NULL, numUpdates INTEGER DEFAULT 0)` and an ephemeral table
`mem.sessionActivity (id INTEGER PRIMARY KEY, personId INTEGER NOT NULL,
dateTime DATETIME DEFAULT CURRENT_TIMESTAMP)`, accessed through prepared
statements.  We model the database state as lists of rows, each prepared
statement as a pure state transformer (together with the number of rows it
affects), and error/abort behaviour of the Go wrappers by a small outcome
type, with backend execution failures supplied as explicit parameters.
-/

namespace Ed

/-- A row of the persistent table `main.person`. -/
structure Person where
  id : Int
  name : String
  numUpdates : Nat
deriving Repr, DecidableEq

/-- A row of the ephemeral table `mem.sessionActivity`. -/
structure Event where
  id : Int
  personId : Int
  dateTime : Nat
deriving Repr, DecidableEq

/-- The database state seen through one `EdDb`: the persistent `person`
rows and the ephemeral `sessionActivity` rows. -/
structure EdDbState where
  persons : List Person
  sessionActivity : List Event
deriving Repr, DecidableEq

/-- The empty state: fresh schema, no rows (what `initDbSchema` yields on a
fresh database file and a fresh in-memory attach). -/
def initState : EdDbState := ⟨[], []⟩

/-- Prepared statement `updatePerson`:
`UPDATE person SET name=:name, numUpdates=numUpdates+1 WHERE id=:id`.
Returns the new state and the number of rows affected. -/
def updatePerson (st : EdDbState) (id : Int) (name : String) :
    EdDbState × Nat :=
  ({ st with
      persons := st.persons.map fun p =>
        if p.id = id then { p with name := name, numUpdates := p.numUpdates + 1 }
        else p },
   (st.persons.filter fun p => p.id = id).length)

/-- Prepared statement `insertPerson`:
`INSERT OR IGNORE INTO person (id, name) VALUES(:id, :name)`.
The `OR IGNORE` drops the insert when the primary key `id` already exists;
`numUpdates` takes its schema default `0`.  Returns the new state and the
number of rows affected. -/
def insertPerson (st : EdDbState) (id : Int) (name : String) :
    EdDbState × Nat :=
  if st.persons.any fun p => p.id = id then (st, 0)
  else ({ st with persons := st.persons ++ [⟨id, name, 0⟩] }, 1)

/-- `UpsertPerson` executes `updatePerson` then `insertPerson` with the same
arguments (state effect only; abort behaviour is modelled separately by
`upsertPersonOutcome`). -/
def upsertPerson (st : EdDbState) (id : Int) (name : String) : EdDbState :=
  (insertPerson (updatePerson st id name).1 id name).1

/-- Prepared statement `recordSessionActivity`:
`INSERT INTO sessionActivity (personId) VALUES(:personId)`.
The row id is auto-assigned and `dateTime` defaults to the server clock,
passed here as `now`. -/
def recordSessionActivity (st : EdDbState) (personId : Int) (now : Nat) :
    EdDbState :=
  { st with
      sessionActivity :=
        st.sessionActivity ++ [⟨st.sessionActivity.length, personId, now⟩] }

/-- Look up the `person` row with the given id (at most one exists while the
primary-key invariant holds; `find?` takes the first). -/
def lookupPerson (ps : List Person) (pid : Int) : Option Person :=
  ps.find? fun p => p.id = pid

/-- The `FROM mem.sessionActivity LEFT OUTER JOIN main.person ON
mem.sessionActivity.personId = main.person.id` clause of
`getSessionActivity`: every event row, paired with its matching `person`
row when one exists and with `none` (all `person` columns NULL) otherwise. -/
def leftJoin (st : EdDbState) : List (Event × Option Person) :=
  st.sessionActivity.map fun e => (e, lookupPerson st.persons e.personId)

/-- The `GROUP BY main.person.id` key of one joined row: the id of the
joined `person` row, `NULL` (= `none`) when the event matched no person.
SQL `GROUP BY` puts all NULL keys into one group. -/
def joinKey (r : Event × Option Person) : Option Int :=
  r.2.map Person.id

/-- The distinct group keys of a joined row list, in order of first
appearance. -/
def keyList (rows : List (Event × Option Person)) : List (Option Int) :=
  (rows.map joinKey).foldl (fun acc k => if k ∈ acc then acc else acc ++ [k]) []

/-- The rows of the group with key `k`. -/
def groupFor (rows : List (Event × Option Person)) (k : Option Int) :
    List (Event × Option Person) :=
  rows.filter fun r => joinKey r = k

/-- One output row of `getSessionActivity`: `personName`, `personId`,
`dateTime` (all column values, NULL-able through `Option` for the person
columns) and `numItems = count(*)`. -/
structure ReportRow where
  personName : Option String
  personId : Option Int
  dateTime : Nat
  numItems : Nat
deriving Repr, DecidableEq

/-- Comparison used by the `ORDER BY ... dateTime ASC` clause. -/
def timeLE (a b : ReportRow) : Prop := a.dateTime ≤ b.dateTime

instance : DecidableRel timeLE := fun a b => Nat.decLe a.dateTime b.dateTime

instance : IsTotal ReportRow timeLE := ⟨fun a b => Nat.le_total a.dateTime b.dateTime⟩

instance : IsTrans ReportRow timeLE := ⟨fun _ _ _ => Nat.le_trans⟩

/-- The output row of one group.  `main.person.name`, `main.person.id` and
`mem.sessionActivity.dateTime` are bare (non-aggregate) columns under
`GROUP BY`, so SQLite takes their values from an arbitrarily chosen row of
the group; that choice is the parameter `pick`, handed the group as head
and tail so it always has a row to return.  `count(*)` is the group size. -/
def reportRowOf (pick : Event × Option Person → List (Event × Option Person) →
    Event × Option Person) (x : Event × Option Person)
    (xs : List (Event × Option Person)) : ReportRow :=
  let rep := pick x xs
  { personName := rep.2.map Person.name
    personId := rep.2.map Person.id
    dateTime := rep.1.dateTime
    numItems := xs.length + 1 }

/-- The output row of the group with key `k`, `none` when no joined row
carries that key. -/
def groupRow (pick : Event × Option Person → List (Event × Option Person) →
    Event × Option Person) (rows : List (Event × Option Person))
    (k : Option Int) : Option ReportRow :=
  match groupFor rows k with
  | [] => none
  | x :: xs => some (reportRowOf pick x xs)

/-- Prepared statement `getSessionActivity`: left-outer-join events to
persons, group by `main.person.id`, emit one row per group, order by
`dateTime` ascending. -/
def getSessionActivity (pick : Event × Option Person →
    List (Event × Option Person) → Event × Option Person)
    (st : EdDbState) : List ReportRow :=
  List.insertionSort timeLE
    ((keyList (leftJoin st)).filterMap (groupRow pick (leftJoin st)))

/-- One admissible bare-column choice: the first row of each group. -/
def pickHead (x : Event × Option Person)
    (_ : List (Event × Option Person)) : Event × Option Person := x

/-- Outcome of one public data-access call in the Go code: either the call
returns to its caller (with the `err` value the Go function returns), or
the process is aborted by `log.Fatal` with the given message. -/
inductive ExecOutcome where
  | ok : Option String → ExecOutcome
  | fatal : String → ExecOutcome
deriving Repr, DecidableEq

/-- Control flow of `UpsertPerson`, with the backend execution errors of the
two statement invocations as parameters (`none` = the invocation
succeeded).  The Go code checks each `err` and calls `log.Fatal` on a
failure, so a failing invocation never returns to the caller. -/
def upsertPersonOutcome (updateErr insertErr : Option String) : ExecOutcome :=
  match updateErr with
  | some e => .fatal ("updatePerson: " ++ e)
  | none =>
    match insertErr with
    | some e => .fatal ("insertPerson: " ++ e)
    | none => .ok none

/-- Control flow of `RecordSessionActivity`, with the backend execution
error of its single statement invocation as a parameter. -/
def recordSessionActivityOutcome (execErr : Option String) : ExecOutcome :=
  match execErr with
  | some e => .fatal ("RecordSessionActivity: " ++ e)
  | none => .ok none

/-- The `ConnectHook` installed by `New` on every freshly created pooled
connection.  The Go code runs `newConn.Exec("ATTACH DATABASE ...")`,
discards both of that call's results, and returns `nil` unconditionally.
`attachSucceeds` is whether the ATTACH command succeeded on the backend;
the result is (whether the shared dataset is attached to the yielded
connection, the error the hook returns). -/
def connectHook (attachSucceeds : Bool) : Bool × Option String :=
  (attachSucceeds, none)

/-- The fixed driver name `New` registers, verbatim from the source. -/
def driverName : String := "sqlite3ConnectionCatchingDriver"

/-- The process-wide driver registry of Go `database/sql`.  Per its
documentation, `sql.Register` panics when called twice with the same name;
`none` models that panic. -/
def registerDriver (registry : List String) (name : String) :
    Option (List String) :=
  if name ∈ registry then none else some (registry ++ [name])

/-- The registration step of `New dbFilename`: it unconditionally calls
`sql.Register` with the fixed `driverName` before anything else, whatever
`dbFilename` is.  Result: the new registry, or `none` when the process
panicked. -/
def newRegistration (registry : List String) (dbFilename : String) :
    Option (List String) :=
  let _ := dbFilename
  registerDriver registry driverName

/-! ### Helper lemmas about the person statements -/

/-- `updatePerson` leaves a row list untouched when no row carries the
target id. -/
theorem map_update_of_not_mem (id : Int) (name : String) :
    ∀ (l : List Person), (∀ p ∈ l, p.id ≠ id) →
      (l.map fun p =>
        if p.id = id then { p with name := name, numUpdates := p.numUpdates + 1 }
        else p) = l := by
  intro l hl
  induction l with
  | nil => simp
  | cons a t ih =>
    have ha : a.id ≠ id := hl a (by simp)
    simp only [List.map_cons, if_neg ha, List.cons.injEq, true_and]
    exact ih fun p hp => hl p (by simp [hp])

/-- Upserting an id that is absent appends the row `⟨id, name, 0⟩` and
changes nothing else; the update step affects zero rows. -/
theorem upsertPerson_fresh (st : EdDbState) (id : Int) (name : String)
    (h : ∀ p ∈ st.persons, p.id ≠ id) :
    (upsertPerson st id name).persons = st.persons ++ [⟨id, name, 0⟩] ∧
      (updatePerson st id name).2 = 0 := by
  constructor
  · unfold upsertPerson updatePerson insertPerson
    simp only [map_update_of_not_mem id name st.persons h]
    have hany : (st.persons.any fun p => p.id = id) = false := by
      simp only [List.any_eq_false, decide_eq_true_eq]
      exact h
    simp [hany]
  · unfold updatePerson
    simp only [List.length_eq_zero, List.filter_eq_nil_iff]
    intro p hp
    simpa using h p hp

/-- Upserting an id that is present applies the update map and skips the
ignored insert. -/
theorem upsertPerson_existing (st : EdDbState) (id : Int) (name : String)
    (q : Person) (hq : q ∈ st.persons) (hqid : q.id = id) :
    (upsertPerson st id name).persons =
      st.persons.map fun p =>
        if p.id = id then { p with name := name, numUpdates := p.numUpdates + 1 }
        else p := by
  unfold upsertPerson updatePerson insertPerson
  have hany : ((st.persons.map fun p =>
      if p.id = id then { p with name := name, numUpdates := p.numUpdates + 1 }
      else p).any fun p => p.id = id) = true := by
    simp only [List.any_eq_true, decide_eq_true_eq]
    refine ⟨if q.id = id then { q with name := name, numUpdates := q.numUpdates + 1 } else q,
      List.mem_map_of_mem _ hq, ?_⟩
    simp [hqid]
  simp [hany]

/-! ### C1: error propagation of UpsertPerson / RecordSessionActivity -/

/-- C1 counterexample: the claim says a failing statement invocation never
aborts the process and is returned to the caller as a storage error.  In
the code a failing invocation of either `UpsertPerson` statement, or of the
`RecordSessionActivity` statement, hits `log.Fatal`, which terminates the
process; no error is ever returned.  Concrete failing invocation shown
here: a backend "disk I/O error". -/
theorem exec_error_aborts_process_cex :
    upsertPersonOutcome (some "disk I/O error") none =
      ExecOutcome.fatal "updatePerson: disk I/O error" ∧
    recordSessionActivityOutcome (some "disk I/O error") =
      ExecOutcome.fatal "RecordSessionActivity: disk I/O error" :=
  ⟨rfl, rfl⟩

/-- C1 amended: for every call to `UpsertPerson` or `RecordSessionActivity`
in which a statement invocation fails against the backend, the operation
aborts the whole process via `log.Fatal`; the caller gets an error value
back only in the shape of a `nil` error after full success, never a
distinguishable storage error. -/
theorem exec_error_never_returned_to_caller (u i r : Option String) :
    (upsertPersonOutcome u i = ExecOutcome.ok none ∨
      ∃ m, upsertPersonOutcome u i = ExecOutcome.fatal m) ∧
    (upsertPersonOutcome u i = ExecOutcome.ok none ↔ u = none ∧ i = none) ∧
    (recordSessionActivityOutcome r = ExecOutcome.ok none ∨
      ∃ m, recordSessionActivityOutcome r = ExecOutcome.fatal m) ∧
    (recordSessionActivityOutcome r = ExecOutcome.ok none ↔ r = none) := by
  cases u <;> cases i <;> cases r <;>
    simp [upsertPersonOutcome, recordSessionActivityOutcome]

/-! ### C2, C3, C4: upsert semantics -/

/-- C2: for any id not currently stored, upserting it twice with two
different names leaves exactly one stored row for that id, whose name is
the second name and whose `numUpdates` is 1. -/
theorem upsert_twice_fresh_final_row (st : EdDbState) (id : Int)
    (n1 n2 : String) (hid : ∀ p ∈ st.persons, p.id ≠ id) (_hn : n1 ≠ n2) :
    ((upsertPerson (upsertPerson st id n1) id n2).persons.filter
      fun p => p.id = id) = [⟨id, n2, 1⟩] := by
  have h1 := (upsertPerson_fresh st id n1 hid).1
  have h2 := upsertPerson_existing (upsertPerson st id n1) id n2
    ⟨id, n1, 0⟩ (by rw [h1]; simp) rfl
  rw [h2, h1, List.map_append, map_update_of_not_mem id n2 st.persons hid]
  rw [List.filter_append]
  have hfa : (st.persons.filter fun p => p.id = id) = [] := by
    simp only [List.filter_eq_nil_iff]
    intro p hp
    simpa using hid p hp
  simp [hfa]

/-- C2 witness: `upsert(1,"Andy"); upsert(1,"Andy2")` on the empty store
yields the single stored row `(1, "Andy2", 1)`. -/
theorem upsert_twice_fresh_final_row_witness :
    ((upsertPerson (upsertPerson initState 1 "Andy") 1 "Andy2").persons.filter
      fun p => p.id = 1) = [⟨1, "Andy2", 1⟩] :=
  upsert_twice_fresh_final_row initState 1 "Andy" "Andy2" (by simp [initState])
    (by decide)

/-- C3 counterexample: the claim says an id upserted twice with different
names ends with `numUpdates = 2`.  On the code, upserting a fresh id twice
ends with `numUpdates = 1` (the first upsert's update step matches no row):
`upsert(1,"Andy"); upsert(1,"Andy2")` on the empty store leaves the single
row `(1, "Andy2", 1)`, and its `numUpdates` is not 2. -/
theorem upsert_twice_updateCount_two_cex :
    (upsertPerson (upsertPerson initState 1 "Andy") 1 "Andy2").persons =
      [⟨1, "Andy2", 1⟩] ∧
    ((upsertPerson (upsertPerson initState 1 "Andy") 1 "Andy2").persons.map
      Person.numUpdates) ≠ [2] := by
  exact ⟨rfl, by decide⟩

/-- C3 amended: for all entity ids absent from the store and upserted twice
with different names, the final stored row for that id has the name given
in the last write and `numUpdates = 1` (each upsert of an existing row adds
exactly 1, and the row is created by the first upsert with count 0). -/
theorem upsert_twice_updateCount_one (st : EdDbState) (id : Int)
    (n1 n2 : String) (hid : ∀ p ∈ st.persons, p.id ≠ id) (_hn : n1 ≠ n2) :
    lookupPerson (upsertPerson (upsertPerson st id n1) id n2).persons id =
      some ⟨id, n2, 1⟩ := by
  have h1 := (upsertPerson_fresh st id n1 hid).1
  have h2 := upsertPerson_existing (upsertPerson st id n1) id n2
    ⟨id, n1, 0⟩ (by rw [h1]; simp) rfl
  unfold lookupPerson
  rw [h2, h1, List.map_append, map_update_of_not_mem id n2 st.persons hid]
  rw [List.find?_append]
  have hfa : (st.persons.find? fun p => p.id = id) = none := by
    simp only [List.find?_eq_none, decide_eq_true_eq]
    exact hid
  simp [hfa]

/-- C3 amended witness: the concrete example of the spec,
`upsert(1,"Andy"); upsert(1,"Andy2")` from the empty store. -/
theorem upsert_twice_updateCount_one_witness :
    lookupPerson (upsertPerson (upsertPerson initState 1 "Andy") 1 "Andy2").persons
      1 = some ⟨1, "Andy2", 1⟩ :=
  upsert_twice_updateCount_one initState 1 "Andy" "Andy2" (by simp [initState])
    (by decide)

/-- C4: for every id with no existing row, the update step of
`UpsertPerson` affects zero rows, the insert step creates the row with the
given name and `numUpdates = 0`, and the operation returns no error (zero
rows affected is never a failure; only backend execution errors are). -/
theorem upsert_fresh_zero_rows_ok (st : EdDbState) (id : Int) (name : String)
    (hid : ∀ p ∈ st.persons, p.id ≠ id) :
    (updatePerson st id name).2 = 0 ∧
    (upsertPerson st id name).persons = st.persons ++ [⟨id, name, 0⟩] ∧
    upsertPersonOutcome none none = ExecOutcome.ok none :=
  ⟨(upsertPerson_fresh st id name hid).2, (upsertPerson_fresh st id name hid).1,
    rfl⟩

/-- C4 witness: upserting id 7 into the empty store. -/
theorem upsert_fresh_zero_rows_ok_witness :
    (updatePerson initState 7 "Sue").2 = 0 ∧
    (upsertPerson initState 7 "Sue").persons = initState.persons ++ [⟨7, "Sue", 0⟩] ∧
    upsertPersonOutcome none none = ExecOutcome.ok none :=
  upsert_fresh_zero_rows_ok initState 7 "Sue" (by simp [initState])

/-! ### C7, C8: connection factory and activity recording -/

/-- C7 (code bug): the claim — and the spec — say the connection factory
returns an error when the backend cannot attach the shared in-memory
dataset, fatal to pool startup.  The `ConnectHook` in `New` discards the
result of the ATTACH `Exec` and returns `nil` unconditionally, so a failed
attach still yields a connection, without the shared dataset, and startup
proceeds. -/
theorem connectHook_swallows_attach_failure :
    connectHook false = (false, none) ∧ connectHook true = (true, none) :=
  ⟨rfl, rfl⟩

/-- C8: for every `personId`, with no condition on the persistent rows at
all (no validation that the id names an existing person), a
`RecordSessionActivity` call appends exactly one ephemeral event row
carrying the server-assigned timestamp, leaves the persistent rows
untouched, and returns no error when the backend invocation succeeds. -/
theorem recordActivity_no_validation (st : EdDbState) (pid : Int) (now : Nat) :
    (recordSessionActivity st pid now).sessionActivity =
      st.sessionActivity ++ [⟨st.sessionActivity.length, pid, now⟩] ∧
    (recordSessionActivity st pid now).persons = st.persons ∧
    recordSessionActivityOutcome none = ExecOutcome.ok none :=
  ⟨rfl, rfl, rfl⟩

/-! ### C9: uniqueness and monotonicity invariants -/

/-- C9: when the stored ids are pairwise distinct (the PRIMARY KEY
invariant), an upsert keeps them pairwise distinct; every pre-existing row
keeps its id, its `numUpdates` never decreases — it grows by exactly 1 when
the row is the upsert's target and the row is untouched otherwise — and
recording activity changes no person row at all (the report query takes no
state at all, it only reads). -/
theorem upsert_unique_ids_and_monotone_count (st : EdDbState) (id : Int)
    (name : String) (pid : Int) (now : Nat)
    (hnodup : (st.persons.map Person.id).Nodup) :
    ((upsertPerson st id name).persons.map Person.id).Nodup ∧
    (∀ p ∈ st.persons, ∃ q ∈ (upsertPerson st id name).persons,
      q.id = p.id ∧ p.numUpdates ≤ q.numUpdates ∧
      (p.id = id → q.numUpdates = p.numUpdates + 1) ∧
      (p.id ≠ id → q = p)) ∧
    (recordSessionActivity st pid now).persons = st.persons := by
  by_cases hex : ∃ q ∈ st.persons, q.id = id
  · obtain ⟨q, hq, hqid⟩ := hex
    have hpe := upsertPerson_existing st id name q hq hqid
    refine ⟨?_, ?_, rfl⟩
    · rw [hpe, List.map_map]
      have : (Person.id ∘ fun p =>
          if p.id = id then { p with name := name, numUpdates := p.numUpdates + 1 }
          else p) = Person.id := by
        funext p
        by_cases hp : p.id = id <;> simp [hp]
      rw [this]
      exact hnodup
    · intro p hp
      refine ⟨if p.id = id then { p with name := name, numUpdates := p.numUpdates + 1 }
        else p, by rw [hpe]; exact List.mem_map_of_mem _ hp, ?_, ?_, ?_, ?_⟩
      · by_cases hpid : p.id = id <;> simp [hpid]
      · by_cases hpid : p.id = id <;> simp [hpid]
      · intro hpid; simp [hpid]
      · intro hpid; simp [hpid]
  · push_neg at hex
    have hfresh : ∀ p ∈ st.persons, p.id ≠ id := hex
    have hpf := (upsertPerson_fresh st id name hfresh).1
    refine ⟨?_, ?_, rfl⟩
    · rw [hpf, List.map_append]
      refine List.Nodup.append hnodup (by simp) ?_
      intro x hx hx'
      simp only [List.map_cons, List.map_nil, List.mem_singleton] at hx'
      obtain ⟨p, hp, hpx⟩ := List.mem_map.mp hx
      exact hfresh p hp (hpx.trans hx')
    · intro p hp
      exact ⟨p, by rw [hpf]; exact List.mem_append_left _ hp, rfl, le_refl _,
        fun hpid => absurd hpid (hfresh p hp), fun _ => rfl⟩

/-- C9 witness: a store holding the single row `(1, "Andy", 0)`, upserted
at id 1 while an activity event for id 3 is recorded. -/
theorem upsert_unique_ids_and_monotone_count_witness :
    ((upsertPerson ⟨[⟨1, "Andy", 0⟩], []⟩ 1 "Jim").persons.map Person.id).Nodup ∧
    (∀ p ∈ (⟨[⟨1, "Andy", 0⟩], []⟩ : EdDbState).persons,
      ∃ q ∈ (upsertPerson ⟨[⟨1, "Andy", 0⟩], []⟩ 1 "Jim").persons,
      q.id = p.id ∧ p.numUpdates ≤ q.numUpdates ∧
      (p.id = 1 → q.numUpdates = p.numUpdates + 1) ∧
      (p.id ≠ 1 → q = p)) ∧
    (recordSessionActivity ⟨[⟨1, "Andy", 0⟩], []⟩ 3 42).persons =
      (⟨[⟨1, "Andy", 0⟩], []⟩ : EdDbState).persons :=
  upsert_unique_ids_and_monotone_count ⟨[⟨1, "Andy", 0⟩], []⟩ 1 "Jim" 3 42
    (by simp)

/-! ### C10: a second New panics on driver re-registration -/

/-- C10: `New` always calls `sql.Register` with the same fixed driver name
before doing anything else, so once one `New` has succeeded, a second call
in the same process panics whatever its filename argument: at most one
successful open per process. -/
theorem second_new_panics (reg reg' : List String) (f1 f2 : String)
    (h : newRegistration reg f1 = some reg') :
    newRegistration reg' f2 = none := by
  unfold newRegistration registerDriver at h ⊢
  by_cases hm : driverName ∈ reg
  · simp [hm] at h
  · simp only [hm, if_false, Option.some.injEq] at h
    subst h
    simp

/-- C10 witness: the first open of `diskDb.db` on an empty registry
succeeds; a later open of a different file panics. -/
theorem second_new_panics_witness :
    newRegistration [driverName] "otherDb.db" = none :=
  second_new_panics [] [driverName] "diskDb.db" "otherDb.db" rfl

/-! ### Helper lemmas about the report query -/

/-- An element of the accumulator or of the remaining input survives the
dedup fold used by `keyList`. -/
theorem mem_keyListFold (x : Option Int) :
    ∀ (l acc : List (Option Int)), x ∈ acc ∨ x ∈ l →
      x ∈ l.foldl (fun a k => if k ∈ a then a else a ++ [k]) acc := by
  intro l
  induction l with
  | nil =>
    intro acc h
    simpa using h.resolve_right (by simp)
  | cons k t ih =>
    intro acc h
    rw [List.foldl_cons]
    apply ih
    rcases h with hacc | hl
    · left; by_cases hk : k ∈ acc <;> simp [hk, hacc]
    · rcases List.mem_cons.mp hl with rfl | ht
      · left; by_cases hk : x ∈ acc <;> simp [hk]
      · right; exact ht

/-- Every joined row's key appears among the group keys. -/
theorem mem_keyList {rows : List (Event × Option Person)} {k : Option Int}
    (h : k ∈ rows.map joinKey) : k ∈ keyList rows := by
  unfold keyList
  exact mem_keyListFold k _ [] (Or.inr h)

/-- A successful person lookup returns the row with the requested id. -/
theorem lookupPerson_id {ps : List Person} {i : Int} {p : Person}
    (hp : lookupPerson ps i = some p) : p.id = i := by
  unfold lookupPerson at hp
  have h2 := List.find?_some hp
  exact of_decide_eq_true h2

/-- What a produced group row looks like: its `numItems` is the group size
and its bare columns come from one representative row of the group. -/
theorem groupRow_spec (pick : Event × Option Person →
      List (Event × Option Person) → Event × Option Person)
    (hpick : ∀ x xs, pick x xs ∈ x :: xs)
    (rows : List (Event × Option Person)) (k : Option Int) (row : ReportRow)
    (h : groupRow pick rows k = some row) :
    row.numItems = (groupFor rows k).length ∧
    ∃ rep ∈ groupFor rows k, joinKey rep = k ∧
      row.personName = rep.2.map Person.name ∧
      row.personId = rep.2.map Person.id ∧
      row.dateTime = rep.1.dateTime := by
  unfold groupRow at h
  cases hg : groupFor rows k with
  | nil =>
    rw [hg] at h
    exact Option.noConfusion h
  | cons x xs =>
    rw [hg] at h
    have hrow : row = reportRowOf pick x xs := by
      simpa using h.symm
    have hrep : pick x xs ∈ groupFor rows k := by
      rw [hg]; exact hpick x xs
    have hkey : joinKey (pick x xs) = k :=
      of_decide_eq_true (List.mem_filter.mp hrep).2
    subst hrow
    exact ⟨rfl, pick x xs, hpick x xs, hkey, rfl, rfl, rfl⟩

/-- When a person with id `i` is stored, the group with key `some i` is
exactly the events recorded for `i`, each joined to that person row. -/
theorem groupFor_some_eq (st : EdDbState) (i : Int) (p : Person)
    (hp : lookupPerson st.persons i = some p) :
    groupFor (leftJoin st) (some i) =
      (st.sessionActivity.filter fun e => e.personId = i).map
        fun e => (e, some p) := by
  unfold groupFor leftJoin
  rw [List.filter_map]
  have hpred : ∀ e ∈ st.sessionActivity,
      ((fun r => decide (joinKey r = some i)) ∘
        fun e => (e, lookupPerson st.persons e.personId)) e =
      decide (e.personId = i) := by
    intro e _
    simp only [Function.comp_apply]
    rw [decide_eq_decide]
    constructor
    · intro h
      unfold joinKey at h
      obtain ⟨q, hq, hqid⟩ := Option.map_eq_some'.mp h
      rw [← lookupPerson_id hq, hqid]
    · intro h
      unfold joinKey
      rw [h, hp]
      simp [lookupPerson_id hp]
  rw [List.filter_congr hpred]
  apply List.map_congr_left
  intro e he
  have : e.personId = i := of_decide_eq_true (List.mem_filter.mp he).2
  rw [this, hp]

/-! ### C5: left-outer join, null names and grouping of orphan events -/

/-- C5 counterexample: the claim says results are grouped per entity, each
unmatched event surfacing for its own entity id.  The query groups by
`main.person.id`, which is NULL for every unmatched event, so all orphan
events collapse into one single group: two events for the distinct unknown
entity ids 5 and 7 produce one report row (with NULL name and id), not
two. -/
theorem report_orphans_single_group_cex :
    ((recordSessionActivity (recordSessionActivity initState 5 10) 7 20).sessionActivity.map
      Event.personId) = [5, 7] ∧
    getSessionActivity pickHead
      (recordSessionActivity (recordSessionActivity initState 5 10) 7 20) =
      [⟨none, none, 10, 2⟩] :=
  ⟨rfl, rfl⟩

/-- C5 amended: the join is left-outer — whenever some event references an
id with no person row, the report contains a row with NULL name and NULL
id — but the results are grouped by the joined `person.id`, so all such
orphan events fall into one single NULL group (at most one NULL row
overall) instead of one group per unknown entity id; rows are ordered by
their timestamp column ascending. -/
theorem report_left_outer_null_group
    (pick : Event × Option Person → List (Event × Option Person) →
      Event × Option Person)
    (hpick : ∀ x xs, pick x xs ∈ x :: xs) (st : EdDbState)
    (horphan : ∃ e ∈ st.sessionActivity,
      lookupPerson st.persons e.personId = none) :
    (∃ row ∈ getSessionActivity pick st,
      row.personName = none ∧ row.personId = none) ∧
    (∀ row ∈ getSessionActivity pick st, ∀ row' ∈ getSessionActivity pick st,
      row.personId = none → row'.personId = none → row = row') ∧
    List.Sorted timeLE (getSessionActivity pick st) := by
  have hmem : ∀ r : ReportRow, r ∈ getSessionActivity pick st ↔
      r ∈ (keyList (leftJoin st)).filterMap (groupRow pick (leftJoin st)) := by
    intro r
    unfold getSessionActivity
    exact List.mem_insertionSort timeLE
  refine ⟨?_, ?_, ?_⟩
  · obtain ⟨e, he, hnone⟩ := horphan
    have hrmem : (e, lookupPerson st.persons e.personId) ∈ leftJoin st :=
      List.mem_map_of_mem _ he
    have hkey : joinKey (e, lookupPerson st.persons e.personId) = none := by
      unfold joinKey
      rw [hnone]
      rfl
    have hkmem : (none : Option Int) ∈ keyList (leftJoin st) := by
      apply mem_keyList
      rw [← hkey]
      exact List.mem_map_of_mem joinKey hrmem
    have hgmem : (e, lookupPerson st.persons e.personId) ∈
        groupFor (leftJoin st) none := by
      unfold groupFor
      rw [List.mem_filter]
      exact ⟨hrmem, decide_eq_true hkey⟩
    cases hg : groupFor (leftJoin st) none with
    | nil => rw [hg] at hgmem; cases hgmem
    | cons x xs =>
      have hsome : groupRow pick (leftJoin st) none =
          some (reportRowOf pick x xs) := by
        unfold groupRow
        rw [hg]
      refine ⟨reportRowOf pick x xs, (hmem _).mpr
        (List.mem_filterMap.mpr ⟨none, hkmem, hsome⟩), ?_, ?_⟩
      all_goals
        have hrep : pick x xs ∈ groupFor (leftJoin st) none := by
          rw [hg]; exact hpick x xs
        have hrk : joinKey (pick x xs) = none :=
          of_decide_eq_true (List.mem_filter.mp hrep).2
        have h2 : (pick x xs).2 = none := by
          unfold joinKey at hrk
          exact Option.map_eq_none'.mp hrk
        simp [reportRowOf, h2]
  · intro row hr row' hr' hn hn'
    obtain ⟨k, _, hfk⟩ := List.mem_filterMap.mp ((hmem row).mp hr)
    obtain ⟨k', _, hfk'⟩ := List.mem_filterMap.mp ((hmem row').mp hr')
    obtain ⟨_, rep, _, hrepk, _, hpid, _⟩ :=
      groupRow_spec pick hpick _ k row hfk
    obtain ⟨_, rep', _, hrepk', _, hpid', _⟩ :=
      groupRow_spec pick hpick _ k' row' hfk'
    have hkn : k = none := by
      rw [← hrepk]
      unfold joinKey
      rw [← hpid, hn]
    have hkn' : k' = none := by
      rw [← hrepk']
      unfold joinKey
      rw [← hpid', hn']
    rw [hkn] at hfk
    rw [hkn'] at hfk'
    exact Option.some.inj (hfk.symm.trans hfk')
  · unfold getSessionActivity
    exact List.sorted_insertionSort timeLE _

/-- C5 amended witness: two orphan events (entity ids 5 and 7, no persons
stored), with the arbitrary-row choice taking the first row of each
group. -/
theorem report_left_outer_null_group_witness :
    (∃ row ∈ getSessionActivity pickHead
        (recordSessionActivity (recordSessionActivity initState 5 10) 7 20),
      row.personName = none ∧ row.personId = none) ∧
    (∀ row ∈ getSessionActivity pickHead
        (recordSessionActivity (recordSessionActivity initState 5 10) 7 20),
      ∀ row' ∈ getSessionActivity pickHead
        (recordSessionActivity (recordSessionActivity initState 5 10) 7 20),
      row.personId = none → row'.personId = none → row = row') ∧
    List.Sorted timeLE (getSessionActivity pickHead
      (recordSessionActivity (recordSessionActivity initState 5 10) 7 20)) :=
  report_left_outer_null_group pickHead (fun x xs => List.mem_cons_self x xs)
    (recordSessionActivity (recordSessionActivity initState 5 10) 7 20)
    (by decide)

/-! ### C6: per-entity count and timestamp of the report rows -/

/-- C6 counterexample: the claim says the row's timestamp is the latest
(maximum) event timestamp of the entity.  The query selects the bare
column `mem.sessionActivity.dateTime` under `GROUP BY`, whose value SQLite
takes from an arbitrarily chosen row of the group; with the admissible
choice that takes the group's first row, an entity with events at times 10
and 20 reports timestamp 10, not the maximum 20. -/
theorem report_latest_timestamp_cex :
    getSessionActivity pickHead
      (recordSessionActivity (recordSessionActivity
        (upsertPerson initState 1 "Andy") 1 10) 1 20) =
      [⟨some "Andy", some 1, 10, 2⟩] ∧
    ((recordSessionActivity (recordSessionActivity
        (upsertPerson initState 1 "Andy") 1 10) 1 20).sessionActivity.map
      Event.dateTime) = [10, 20] ∧
    (10 : Nat) ≠ 20 :=
  ⟨rfl, rfl, by decide⟩

/-- C6 amended: for every stored entity, its report row's `numItems` equals
the total number of events recorded for that entity, and its timestamp is
the timestamp of one of that entity's events — an arbitrarily chosen one
(the bare-column `GROUP BY` choice), not necessarily the latest. -/
theorem report_count_and_member_timestamp
    (pick : Event × Option Person → List (Event × Option Person) →
      Event × Option Person)
    (hpick : ∀ x xs, pick x xs ∈ x :: xs) (st : EdDbState) (i : Int)
    (p : Person) (hp : lookupPerson st.persons i = some p) (row : ReportRow)
    (hrow : row ∈ getSessionActivity pick st)
    (hid : row.personId = some i) :
    row.numItems = (st.sessionActivity.filter fun e => e.personId = i).length ∧
    row.dateTime ∈ (st.sessionActivity.filter fun e => e.personId = i).map
      Event.dateTime := by
  unfold getSessionActivity at hrow
  rw [List.mem_insertionSort] at hrow
  obtain ⟨k, _, hfk⟩ := List.mem_filterMap.mp hrow
  obtain ⟨hcount, rep, hrepg, hrepk, _, hpid, htime⟩ :=
    groupRow_spec pick hpick _ k row hfk
  have hki : k = some i := by
    rw [← hrepk]
    unfold joinKey
    rw [← hpid, hid]
  rw [hki] at hcount hrepg
  rw [groupFor_some_eq st i p hp] at hcount hrepg
  constructor
  · rw [hcount, List.length_map]
  · obtain ⟨e, hef, hee⟩ := List.mem_map.mp hrepg
    rw [htime, ← hee]
    exact List.mem_map_of_mem Event.dateTime hef

/-- C6 amended witness: the spec's example — entity 1 upserted to
"Andy2", three events recorded for it at times 10, 11, 12; its single
report row has `numItems` 3 and carries one of those timestamps. -/
theorem report_count_and_member_timestamp_witness :
    (⟨some "Andy2", some 1, 10, 3⟩ : ReportRow).numItems =
      ((recordSessionActivity (recordSessionActivity (recordSessionActivity
        (upsertPerson (upsertPerson initState 1 "Andy") 1 "Andy2") 1 10) 1 11)
        1 12).sessionActivity.filter fun e => e.personId = 1).length ∧
    (⟨some "Andy2", some 1, 10, 3⟩ : ReportRow).dateTime ∈
      ((recordSessionActivity (recordSessionActivity (recordSessionActivity
        (upsertPerson (upsertPerson initState 1 "Andy") 1 "Andy2") 1 10) 1 11)
        1 12).sessionActivity.filter fun e => e.personId = 1).map
        Event.dateTime :=
  report_count_and_member_timestamp pickHead
    (fun x xs => List.mem_cons_self x xs)
    (recordSessionActivity (recordSessionActivity (recordSessionActivity
      (upsertPerson (upsertPerson initState 1 "Andy") 1 "Andy2") 1 10) 1 11)
      1 12)
    1 ⟨1, "Andy2", 1⟩ rfl ⟨some "Andy2", some 1, 10, 3⟩ (by decide) rfl

end Ed
